import Mathlib

/-!
Verification of the markdown-to-structured-data extraction pipeline and the
inline formatter of the AI listing optimizer frontend.

The source under scrutiny is `parseAnalysisFromText` and
`formatAIResponseWithAsterisks` (TypeScript).  Strings are modelled as
`List Char`; the handful of JavaScript regular expressions used by the code
collapse, for these specific patterns, to deterministic scans which are
embedded here as structurally recursive functions.  The whitespace class
models the ASCII portion of JavaScript `\s` / `String.trim` (all inputs of
interest are ASCII); `.` in a regex excludes the line terminators `\n`, `\r`.
-/

/-- JavaScript whitespace class (ASCII part of `\s`, also used by `trim`). -/
def isWs (c : Char) : Bool :=
  c = ' ' || c = '\t' || c = '\n' || c = '\r' || c = '\x0b' || c = '\x0c'

/-- Line terminators (excluded by `.`, and line-start points for `^` with `m`). -/
def isTerm (c : Char) : Bool := c = '\n' || c = '\r'

/-- `strStarts l p` : does `l` start with the literal `p`. -/
def strStarts : List Char → List Char → Bool
  | _, [] => true
  | [], _ :: _ => false
  | c :: cs, d :: ds => c == d && strStarts cs ds

/-- Maximal run of leading whitespace removed; this is the deterministic
residue of a greedy `\s*` that is followed by a non-whitespace literal. -/
def trimLeft : List Char → List Char
  | [] => []
  | c :: cs => if isWs c then trimLeft cs else c :: cs

/-- Right-side analogue, via reversal. -/
def trimRight (l : List Char) : List Char := (trimLeft l.reverse).reverse

/-- JavaScript `String.prototype.trim`. -/
def trim (l : List Char) : List Char := trimRight (trimLeft l)

/-- The rest of the current line: what `(.*)` captures (stops at `\n`/`\r`). -/
def lineOf : List Char → List Char
  | [] => []
  | c :: cs => if isTerm c then [] else c :: lineOf cs

/-- JavaScript `split('\n')` (keeps empty pieces). -/
def splitNl : List Char → List (List Char)
  | [] => [[]]
  | c :: cs =>
    if c = '\n' then [] :: splitNl cs
    else
      match splitNl cs with
      | h :: t => (c :: h) :: t
      | [] => [[c]]

/-- `replace` of the anchored pattern `^` hyphen by the empty string:
drop a single leading hyphen when present. -/
def dropDash : List Char → List Char
  | '-' :: cs => cs
  | l => l

/-- Maximal prefix of characters other than `*` (residue of greedy `[^*]+`). -/
def nonStarRun : List Char → List Char
  | [] => []
  | c :: cs => if c = '*' then [] else c :: nonStarRun cs

-- Literal fragments of the grammar.

def hh2 : List Char := "##".toList
def hh3 : List Char := "###".toList
def hh4 : List Char := "####".toList
def nlHH : List Char := "\n##".toList
def nl4H : List Char := "\n####".toList
def hOverall : List Char := "Overall Assessment".toList
def hPrice : List Char := "Price Analysis".toList
def hTags : List Char := "Suggested SEO Tags (13)".toList
def hActions : List Char := "Actionable Recommendations".toList
def hSeo : List Char := "Suggested SEO Tags".toList
def litElement : List Char := "Element:".toList
def litSuggestion : List Char := "Suggestion:".toList
def litReasoning : List Char := "Reasoning:".toList

/-! ### The extractor (`parseAnalysisFromText`)

Each section regex has the shape `##\s*H\s*([\s\S]*?)(?=TERM|$)`:
the first position at which `##`, maximal whitespace, then the literal `H`
match starts the section; the greedy `\s*` after `H` consumes the maximal
whitespace run, and the lazy body grows until the terminator lookahead holds
or the text ends (the `$` alternative means the whole pattern can never fail
once the heading matched, so the greedy `\s*` is never backtracked). -/

/-- Does `##` + `\s*` + the literal `h` match at this position. -/
def head2At (h : List Char) (s : List Char) : Bool :=
  strStarts s hh2 && strStarts (trimLeft (s.drop 2)) h

/-- Suffix right after the heading and the greedy whitespace run. -/
def payload2 (h : List Char) (s : List Char) : List Char :=
  trimLeft ((trimLeft (s.drop 2)).drop h.length)

/-- Lookahead `\n##` of the three plain sections. -/
def term2At (s : List Char) : Bool := strStarts s nlHH

/-- Lookahead `\n##\s*Suggested SEO Tags` of the recommendations section. -/
def seoTermAt (s : List Char) : Bool :=
  strStarts s nlHH && strStarts (trimLeft (s.drop 3)) hSeo

/-- Lazy body: grows until the terminator test `f` holds or the text ends. -/
def bodyUntil (f : List Char → Bool) : List Char → List Char
  | [] => []
  | c :: cs => if f (c :: cs) then [] else c :: bodyUntil f cs

/-- What remains of the text after `bodyUntil f`. -/
def restUntil (f : List Char → Bool) : List Char → List Char
  | [] => []
  | c :: cs => if f (c :: cs) then c :: cs else restUntil f cs

/-- `text.match(/##\s*H\s*([\s\S]*?)(?=TERM|$)/)`: first-occurrence section
capture (`none` when the heading matches nowhere). -/
def findSec (f : List Char → Bool) (h : List Char) : List Char → Option (List Char)
  | [] => none
  | c :: cs =>
    if head2At h (c :: cs) then some (bodyUntil f (payload2 h (c :: cs)))
    else findSec f h cs

/-- `^###\s*Element:` test (the `^` part is handled by the caller). -/
def elemHeadAt (s : List Char) : Bool :=
  strStarts s hh3 && strStarts (trimLeft (s.drop 3)) litElement

/-- Text after `###`, `\s*`, `Element:`, `\s*` — where group `(.*)` starts. -/
def elemLabelArea (s : List Char) : List Char :=
  trimLeft ((trimLeft (s.drop 3)).drop 8)

/-- The captured element label (rest of line, untrimmed). -/
def elemLabel (s : List Char) : List Char := lineOf (elemLabelArea s)

/-- Suffix right after the whole `### Element:` match (`match.index + match[0].length`). -/
def elemAfterLabel (s : List Char) : List Char :=
  (elemLabelArea s).drop (elemLabel s).length

/-- `matchAll(/^###\s*Element:\s*(.*)/gm)` together with the chunk slicing of
the loop body: returns the text before the first match (discarded by the
caller) and the list of (label, chunk) pairs.  The `Nat` argument counts
characters still inside the previous match (the `g`-flag resumes the search
at the end of each match); the `Bool` says whether the current position is a
line start (`^` with the `m` flag). -/
def elemGo : List Char → Nat → Bool → List Char × List (List Char × List Char)
  | [], _, _ => ([], [])
  | c :: cs, Nat.succ skip, _ => elemGo cs skip (isTerm c)
  | c :: cs, 0, ls =>
    if ls && elemHeadAt (c :: cs) then
      let lbl := elemLabel (c :: cs)
      let sk := (c :: cs).length - (elemAfterLabel (c :: cs)).length
      let res := elemGo cs (sk - 1) false
      ([], (lbl, res.1) :: res.2)
    else
      let res := elemGo cs 0 (isTerm c)
      (c :: res.1, res.2)

/-- `####\s*Suggestion:` test. -/
def suggHeadAt (s : List Char) : Bool :=
  strStarts s hh4 && strStarts (trimLeft (s.drop 4)) litSuggestion

/-- Lookahead `\n####\s*Reasoning:` terminating the suggestion body. -/
def reasonTermAt (s : List Char) : Bool :=
  strStarts s nl4H && strStarts (trimLeft (s.drop 5)) litReasoning

/-- `####\s*Reasoning:` test. -/
def reasonHeadAt (s : List Char) : Bool :=
  strStarts s hh4 && strStarts (trimLeft (s.drop 4)) litReasoning

/-- `chunk.match(/####\s*Suggestion:\s*([\s\S]*?)(?=\n####\s*Reasoning:|$)/)`,
already trimmed as in the source. -/
def findSugg : List Char → Option (List Char)
  | [] => none
  | c :: cs =>
    if suggHeadAt (c :: cs) then
      some (trim (bodyUntil reasonTermAt (trimLeft ((trimLeft ((c :: cs).drop 4)).drop 11))))
    else findSugg cs

/-- `chunk.match(/####\s*Reasoning:\s*([\s\S]*)/)`, already trimmed. -/
def findReas : List Char → Option (List Char)
  | [] => none
  | c :: cs =>
    if reasonHeadAt (c :: cs) then
      some (trim ((trimLeft ((c :: cs).drop 4)).drop 10))
    else findReas cs

/-- One parsed recommendation (source interface `Recommendation`). -/
structure Recommendation where
  element : List Char
  suggestion : List Char
  reasoning : List Char
deriving DecidableEq, Repr

/-- The push-if condition of the source loop body:
`if (element && (suggestion || reasoning)) push({element, suggestion, reasoning})`. -/
def mkRec (lbl chunk : List Char) : Option Recommendation :=
  let element := trim lbl
  let suggestion := (findSugg chunk).getD []
  let reasoning := (findReas chunk).getD []
  if element ≠ [] ∧ (suggestion ≠ [] ∨ reasoning ≠ []) then
    some ⟨element, suggestion, reasoning⟩
  else none

/-- The whole `elementMatches.forEach` loop over a recommendations-section body. -/
def processRecs (b : List Char) : List Recommendation :=
  (elemGo b 0 true).2.filterMap fun p => mkRec p.1 p.2

/-- The parsed analysis record (source interface `ListingAnalysis`; the
`sources` field is attached from the grounding metadata after parsing and is
not produced by the extractor, so it is not modelled). -/
structure ListingAnalysis where
  overall_assessment : List Char
  price_analysis : List Char
  recommendations : List Recommendation
  suggested_keywords : List (List Char)
deriving DecidableEq, Repr

/-- The extractor `parseAnalysisFromText`. -/
def parseAnalysisFromText (t : List Char) : ListingAnalysis :=
  { overall_assessment :=
      match findSec term2At hOverall t with
      | some b => trim b
      | none => []
  , price_analysis :=
      match findSec term2At hPrice t with
      | some b => trim b
      | none => []
  , suggested_keywords :=
      match findSec term2At hTags t with
      | some b =>
          (((splitNl b).map fun kw => trim (dropDash kw)).filter
            fun kw => !kw.isEmpty).map (List.take 20)
      | none => []
  , recommendations :=
      match findSec seoTermAt hActions t with
      | some b => processRecs b
      | none => [] }

/-! ### The inline formatter (`formatAIResponseWithAsterisks`) -/

/-- Does `/\*\*([^*]+)\*\*/` match at this position. -/
def boldAt (s : List Char) : Bool :=
  strStarts s ['*', '*'] &&
    (let rest := s.drop 2
     let run := nonStarRun rest
     !run.isEmpty && strStarts (rest.drop run.length) ['*', '*'])

/-- `replace(/\*\*([^*]+)\*\*/g, '<strong>$1</strong>')` as a two-mode scan:
mode `false` looks for an opening `**` (copying literally), mode `true` is
inside a match whose closing `**` is guaranteed by `boldAt`. -/
def boldGo : Bool → List Char → List Char
  | _, [] => []
  | false, c :: cs =>
    if boldAt (c :: cs) then
      match cs with
      | _ :: rest => "<strong>".toList ++ boldGo true rest
      | [] => [c]
    else c :: boldGo false cs
  | true, c :: cs =>
    if c = '*' then
      match cs with
      | _ :: rest => "</strong>".toList ++ boldGo false rest
      | [] => []
    else c :: boldGo true cs

def replaceBold (l : List Char) : List Char := boldGo false l

/-- `split(/\n\s*(?=\*)/)`: a split point at every `\n` whose following
maximal whitespace run is followed by `*`; the delimiter consumes the `\n`
and that run (mode `true` = consuming the run). -/
def splitGo : Bool → List Char → List (List Char)
  | _, [] => [[]]
  | skip, c :: cs =>
    if skip && isWs c then splitGo true cs
    else if c = '\n' && strStarts (trimLeft cs) ['*'] then [] :: splitGo true cs
    else
      match splitGo false cs with
      | h :: t => (c :: h) :: t
      | [] => [[c]]

def splitBullets (l : List Char) : List (List Char) := splitGo false l

/-- `replace(/\n/g, '<br>')`. -/
def replaceNl : List Char → List Char
  | [] => []
  | c :: cs => if c = '\n' then "<br>".toList ++ replaceNl cs else c :: replaceNl cs

/-- One paragraph of the formatter: trim, strip a leading bullet, `<br>`
conversion, `<p>` wrapper. -/
def renderPara (p : List Char) : List Char :=
  let c0 := trim p
  let c1 := if strStarts c0 ['*'] then trim (c0.drop 1) else c0
  "<p>".toList ++ replaceNl c1 ++ "</p>".toList

/-- The formatter `formatAIResponseWithAsterisks`. -/
def formatAIResponseWithAsterisks (raw : List Char) : List Char :=
  if raw = [] then []
  else ((splitBullets (replaceBold raw)).map renderPara).flatten

example :
    formatAIResponseWithAsterisks ("Intro line\n* First bullet\n* Second bullet".toList)
      = "<p>Intro line</p><p>First bullet</p><p>Second bullet</p>".toList := by decide

example :
    formatAIResponseWithAsterisks ("**Bold** and plain".toList)
      = "<p><strong>Bold</strong> and plain</p>".toList := by decide

example :
    (parseAnalysisFromText ("## Overall Assessment\nGreat listing.".toList)).overall_assessment
      = "Great listing.".toList := by decide

example :
    (parseAnalysisFromText
      ("## Actionable Recommendations\n### Element: Title\n#### Suggestion:\nS\n#### Reasoning:\nR\n## Suggested SEO Tags (13)\n- tag one".toList)).recommendations
      = [⟨"Title".toList, "S".toList, "R".toList⟩] := by decide

/-! ### Generic facts about the scanning helpers -/

/-- Does the predicate hold at some suffix position of the text. -/
def anySuffix (p : List Char → Bool) : List Char → Bool
  | [] => p []
  | c :: cs => p (c :: cs) || anySuffix p cs

@[simp] theorem isWs_space : isWs ' ' = true := by decide

@[simp] theorem isWs_nl : isWs '\n' = true := by decide

@[simp] theorem isWs_hash : isWs '#' = false := by decide

theorem strStarts_iff (p : List Char) : ∀ l, strStarts l p = true ↔ ∃ r, l = p ++ r := by
  induction p with
  | nil => intro l; simp [strStarts]
  | cons d ds ih =>
    intro l
    cases l with
    | nil => simp [strStarts]
    | cons c cs =>
      simp only [strStarts, Bool.and_eq_true, beq_iff_eq, ih, List.cons_append,
        List.cons.injEq]
      constructor
      · rintro ⟨rfl, r, rfl⟩; exact ⟨r, rfl, rfl⟩
      · rintro ⟨r, rfl, rfl⟩; exact ⟨rfl, r, rfl⟩

theorem strStarts_append_self (p r : List Char) : strStarts (p ++ r) p = true :=
  (strStarts_iff p _).mpr ⟨r, rfl⟩

theorem trimLeft_cons_of_ws {c : Char} (h : isWs c = true) (l : List Char) :
    trimLeft (c :: l) = trimLeft l := by simp [trimLeft, h]

theorem trimLeft_cons_of_not {c : Char} (h : isWs c = false) (l : List Char) :
    trimLeft (c :: l) = c :: l := by simp [trimLeft, h]

theorem exists_append_trimLeft (l : List Char) : ∃ u, l = u ++ trimLeft l := by
  induction l with
  | nil => exact ⟨[], rfl⟩
  | cons c cs ih =>
    by_cases h : isWs c = true
    · obtain ⟨u, hu⟩ := ih
      exact ⟨c :: u, by simp [trimLeft_cons_of_ws h, ← hu]⟩
    · exact ⟨[], by simp [trimLeft_cons_of_not (by simpa using h)]⟩

theorem exists_append_drop (n : Nat) (l : List Char) : ∃ u, l = u ++ l.drop n :=
  ⟨l.take n, (List.take_append_drop n l).symm⟩

theorem append_chain {α : Type} {a b c : List α} (u v : List α)
    (h1 : a = u ++ b) (h2 : b = v ++ c) : a = (u ++ v) ++ c := by
  rw [h1, h2, List.append_assoc]

theorem exists_append_payload2 (h s : List Char) : ∃ u, s = u ++ payload2 h s := by
  obtain ⟨u1, hu1⟩ := exists_append_drop 2 s
  obtain ⟨u2, hu2⟩ := exists_append_trimLeft (s.drop 2)
  obtain ⟨u3, hu3⟩ := exists_append_drop h.length (trimLeft (s.drop 2))
  obtain ⟨u4, hu4⟩ := exists_append_trimLeft ((trimLeft (s.drop 2)).drop h.length)
  exact ⟨(u1 ++ u2 ++ u3) ++ u4,
    append_chain _ _ (append_chain _ _ (append_chain u1 u2 hu1 hu2) hu3) hu4⟩

theorem trimLeft_append_of_ne {a : List Char} (b : List Char) (h : trimLeft a ≠ []) :
    trimLeft (a ++ b) = trimLeft a ++ b := by
  induction a with
  | nil => simp [trimLeft] at h
  | cons c cs ih =>
    by_cases hc : isWs c = true
    · rw [trimLeft_cons_of_ws hc] at h
      rw [List.cons_append, trimLeft_cons_of_ws hc, trimLeft_cons_of_ws hc]
      exact ih h
    · have hc' : isWs c = false := by simpa using hc
      rw [List.cons_append, trimLeft_cons_of_not hc', trimLeft_cons_of_not hc',
        List.cons_append]

theorem bodyUntil_append_restUntil (f : List Char → Bool) :
    ∀ x, bodyUntil f x ++ restUntil f x = x := by
  intro x
  induction x with
  | nil => simp [bodyUntil, restUntil]
  | cons c cs ih =>
    by_cases h : f (c :: cs) = true
    · simp [bodyUntil, restUntil, h]
    · simp only [bodyUntil, restUntil, h, Bool.false_eq_true, if_false, List.cons_append,
        ih]

theorem restUntil_cases (f : List Char → Bool) :
    ∀ x, restUntil f x = [] ∨ f (restUntil f x) = true := by
  intro x
  induction x with
  | nil => exact Or.inl rfl
  | cons c cs ih =>
    by_cases h : f (c :: cs) = true
    · right; simp [restUntil, h]
    · simpa [restUntil, h] using ih

theorem anySuffix_bodyUntil (f : List Char → Bool) (hnil : f [] = false)
    (mono : ∀ c (p q : List Char), (∃ r, p ++ r = q) → f (c :: p) = true → f (c :: q) = true) :
    ∀ x, anySuffix f (bodyUntil f x) = false := by
  intro x
  induction x with
  | nil => simpa [bodyUntil, anySuffix]
  | cons c cs ih =>
    by_cases h : f (c :: cs) = true
    · simpa [bodyUntil, h, anySuffix]
    · have hbody : bodyUntil f (c :: cs) = c :: bodyUntil f cs := by
        simp [bodyUntil, h]
      rw [hbody]
      have hfc : f (c :: bodyUntil f cs) = false := by
        by_contra hx
        have hx' : f (c :: bodyUntil f cs) = true := by
          revert hx; cases f (c :: bodyUntil f cs) <;> simp
        have := mono c (bodyUntil f cs) cs
          ⟨restUntil f cs, bodyUntil_append_restUntil f cs⟩ hx'
        exact h this
      simp [anySuffix, hfc, ih]

theorem findSec_some_inv (f : List Char → Bool) (h : List Char) :
    ∀ t b, findSec f h t = some b → ∃ P u, t = u ++ P ∧ b = bodyUntil f P := by
  intro t
  induction t with
  | nil => intro b hb; simp [findSec] at hb
  | cons c cs ih =>
    intro b hb
    by_cases hc : head2At h (c :: cs) = true
    · rw [show findSec f h (c :: cs) = some (bodyUntil f (payload2 h (c :: cs))) by
        simp [findSec, hc]] at hb
      obtain ⟨u, hu⟩ := exists_append_payload2 h (c :: cs)
      exact ⟨payload2 h (c :: cs), u, hu, (Option.some_inj.mp hb).symm⟩
    · rw [show findSec f h (c :: cs) = findSec f h cs by simp [findSec, hc]] at hb
      obtain ⟨P, u, hu, hbP⟩ := ih b hb
      exact ⟨P, c :: u, by rw [List.cons_append, ← hu], hbP⟩

theorem term2At_mono (c : Char) (p q : List Char) (hpq : ∃ r, p ++ r = q)
    (hp : term2At (c :: p) = true) : term2At (c :: q) = true := by
  obtain ⟨r, hr⟩ := hpq
  unfold term2At at *
  obtain ⟨w, hw⟩ := (strStarts_iff nlHH _).mp hp
  refine (strStarts_iff nlHH _).mpr ⟨w ++ r, ?_⟩
  rw [← hr, show c :: (p ++ r) = (c :: p) ++ r from rfl, hw, List.append_assoc]

theorem seoTermAt_mono (c : Char) (p q : List Char) (hpq : ∃ r, p ++ r = q)
    (hp : seoTermAt (c :: p) = true) : seoTermAt (c :: q) = true := by
  obtain ⟨r, hr⟩ := hpq
  unfold seoTermAt at *
  rw [Bool.and_eq_true] at hp
  obtain ⟨h1, h2⟩ := hp
  obtain ⟨w, hw⟩ := (strStarts_iff nlHH _).mp h1
  have hw' : c :: p = '\n' :: '#' :: '#' :: w := hw
  injection hw' with hc hp'
  subst hc
  subst hp'
  subst hr
  rw [Bool.and_eq_true]
  have hsw : strStarts (trimLeft w) hSeo = true := h2
  constructor
  · exact strStarts_append_self nlHH (w ++ r)
  · show strStarts (trimLeft (w ++ r)) hSeo = true
    obtain ⟨v, hv⟩ := (strStarts_iff hSeo _).mp hsw
    have hlen : hSeo.length = 18 := by decide
    have hne : trimLeft w ≠ [] := by
      rw [hv]
      intro hx
      have hx' := congrArg List.length hx
      simp [hlen] at hx'
    rw [trimLeft_append_of_ne r hne, hv, List.append_assoc]
    exact strStarts_append_self hSeo _

theorem findSec_eq_none (f : List Char → Bool) (h : List Char) :
    ∀ t, anySuffix (head2At h) t = false → findSec f h t = none := by
  intro t
  induction t with
  | nil => intro _; rfl
  | cons c cs ih =>
    intro ha
    rw [show anySuffix (head2At h) (c :: cs)
        = (head2At h (c :: cs) || anySuffix (head2At h) cs) from rfl,
      Bool.or_eq_false_iff] at ha
    simp [findSec, ha.1, ih ha.2]

/-- C1: on any input in which none of the four recognized `##` heading
patterns matches at any position, the extractor returns the all-default
record (empty assessment, empty price analysis, no recommendations, no
keywords); in particular it does so on the empty string.  The extractor is a
total function of its input — the embedding has no failure outcome, which is
the "never throws" half of the claim. -/
theorem no_recognized_heading_yields_defaults (t : List Char)
    (h1 : anySuffix (head2At hOverall) t = false)
    (h2 : anySuffix (head2At hPrice) t = false)
    (h3 : anySuffix (head2At hTags) t = false)
    (h4 : anySuffix (head2At hActions) t = false) :
    parseAnalysisFromText t =
      { overall_assessment := [], price_analysis := [], recommendations := [],
        suggested_keywords := [] } ∧
    parseAnalysisFromText [] =
      { overall_assessment := [], price_analysis := [], recommendations := [],
        suggested_keywords := [] } := by
  refine ⟨?_, by decide⟩
  unfold parseAnalysisFromText
  rw [findSec_eq_none term2At hOverall t h1, findSec_eq_none term2At hPrice t h2,
    findSec_eq_none term2At hTags t h3, findSec_eq_none seoTermAt hActions t h4]

/-- Witness for C1 at a concrete heading-free input. -/
theorem no_recognized_heading_yields_defaults_witness :
    parseAnalysisFromText ("Just a plain product listing with no markdown headings.".toList) =
      { overall_assessment := [], price_analysis := [], recommendations := [],
        suggested_keywords := [] } ∧
    parseAnalysisFromText [] =
      { overall_assessment := [], price_analysis := [], recommendations := [],
        suggested_keywords := [] } :=
  no_recognized_heading_yields_defaults _ (by decide) (by decide) (by decide) (by decide)

/-- C3: when the Suggested SEO Tags section is present with body `b`, the
keyword list is exactly the line pipeline (split on newlines, strip one
leading hyphen, trim, drop empties, truncate to the first 20 characters, in
line order), and every produced keyword has length at most 20. -/
theorem seo_tags_pipeline (t b : List Char) (hb : findSec term2At hTags t = some b) :
    (parseAnalysisFromText t).suggested_keywords =
      (((splitNl b).map fun kw => trim (dropDash kw)).filter fun kw => !kw.isEmpty).map
        (List.take 20) ∧
    ∀ kw ∈ (parseAnalysisFromText t).suggested_keywords, kw.length ≤ 20 := by
  have hk : (parseAnalysisFromText t).suggested_keywords =
      (((splitNl b).map fun kw => trim (dropDash kw)).filter fun kw => !kw.isEmpty).map
        (List.take 20) := by
    unfold parseAnalysisFromText
    rw [hb]
  refine ⟨hk, ?_⟩
  rw [hk]
  intro kw hkw
  rw [List.mem_map] at hkw
  obtain ⟨w, _, rfl⟩ := hkw
  simp [List.length_take]

/-- Witness for C3 at the spec's own example (second tag is cut to 20 chars). -/
theorem seo_tags_pipeline_witness :
    (parseAnalysisFromText
      ("## Suggested SEO Tags (13)\n- handmade wedding sign\n- custom welcome decor extremely long tag name".toList)).suggested_keywords =
      (((splitNl ("- handmade wedding sign\n- custom welcome decor extremely long tag name".toList)).map
          fun kw => trim (dropDash kw)).filter fun kw => !kw.isEmpty).map (List.take 20) ∧
    ∀ kw ∈ (parseAnalysisFromText
      ("## Suggested SEO Tags (13)\n- handmade wedding sign\n- custom welcome decor extremely long tag name".toList)).suggested_keywords,
      kw.length ≤ 20 :=
  seo_tags_pipeline _ _ (by decide)

/-- C4 (amended): the captured body of the `Overall Assessment` and
`Price Analysis` sections contains no occurrence of newline-`##` at all —
so a deeper heading such as `###`, whose first two hashes satisfy the
terminator test `\n##`, also ends the body —, and the input is the body
flanked by some prefix and a remainder that is empty or starts with the
`\n##` terminator (the whitespace run directly after the heading was already
consumed, which is why a `##` heading immediately after the section heading
is swallowed instead of terminating the body). -/
theorem assessment_price_body_extent (h t b : List Char)
    (_hh : h = hOverall ∨ h = hPrice)
    (hf : findSec term2At h t = some b) :
    anySuffix term2At b = false ∧
      ∃ u v, t = u ++ (b ++ v) ∧ (v = [] ∨ term2At v = true) := by
  obtain ⟨P, u, hu, hbP⟩ := findSec_some_inv term2At h t b hf
  subst hbP
  constructor
  · exact anySuffix_bodyUntil term2At (by decide) term2At_mono P
  · exact ⟨u, restUntil term2At P,
      by rw [hu, bodyUntil_append_restUntil], restUntil_cases term2At P⟩

/-- Witness for C4 at a concrete two-section input. -/
theorem assessment_price_body_extent_witness :
    anySuffix term2At ("Good stuff".toList) = false ∧
      ∃ u v, ("## Overall Assessment\nGood stuff\n## Price Analysis\nP".toList)
          = u ++ ("Good stuff".toList ++ v) ∧ (v = [] ∨ term2At v = true) :=
  assessment_price_body_extent hOverall _ _ (Or.inl rfl) (by decide)

/-- C4 counterexample: the claim says a `###` line inside the body does not
terminate the section, but the `\n##` lookahead also fires on `\n###`, so
the assessment body stops right before `### Deep` instead of extending to
the next level-2 heading. -/
theorem assessment_body_cut_by_h3 :
    (parseAnalysisFromText
      ("## Overall Assessment\nGood line.\n### Deep\nMore\n## Price Analysis\nFine.".toList)).overall_assessment
      = "Good line.".toList ∧
    "Good line.".toList ≠ "Good line.\n### Deep\nMore".toList := by decide

/-- C5 (amended): the body of the Actionable Recommendations section runs
until the specific lookahead newline-`##`-whitespace-`Suggested SEO Tags`
(or the end of the text): the captured body contains no position satisfying
that test and the remainder of the input is empty or starts with it.  Level-2
headings other than the Suggested SEO Tags heading do not terminate the
section. -/
theorem recommendations_body_extent (t b : List Char)
    (hf : findSec seoTermAt hActions t = some b) :
    anySuffix seoTermAt b = false ∧
      ∃ u v, t = u ++ (b ++ v) ∧ (v = [] ∨ seoTermAt v = true) := by
  obtain ⟨P, u, hu, hbP⟩ := findSec_some_inv seoTermAt hActions t b hf
  subst hbP
  constructor
  · exact anySuffix_bodyUntil seoTermAt (by decide) seoTermAt_mono P
  · exact ⟨u, restUntil seoTermAt P,
      by rw [hu, bodyUntil_append_restUntil], restUntil_cases seoTermAt P⟩

/-- Witness for C5 at a concrete input terminated by the SEO Tags heading. -/
theorem recommendations_body_extent_witness :
    anySuffix seoTermAt ("X".toList) = false ∧
      ∃ u v, ("## Actionable Recommendations\nX\n## Suggested SEO Tags (13)\n- a".toList)
          = u ++ ("X".toList ++ v) ∧ (v = [] ∨ seoTermAt v = true) :=
  recommendations_body_extent _ _ (by decide)

/-- C5 counterexample: a `## Price Analysis` heading after the
recommendations heading does not terminate the section — the whole tail,
price heading included, stays inside the block and ends up in the parsed
suggestion text. -/
theorem recommendations_body_not_cut_by_price_heading :
    (parseAnalysisFromText
      ("## Actionable Recommendations\n### Element: Title\n#### Suggestion:\nS\n## Price Analysis\nP".toList)).recommendations
      = [⟨"Title".toList, "S\n## Price Analysis\nP".toList, []⟩] := by decide

/-- C6: a block contributes a RecommendationItem exactly when its trimmed
element label is non-empty and at least one of the extracted suggestion and
reasoning is non-empty; every item in the output satisfies the condition,
and a block with an empty element label (the spec's own example, where the
label line is blank) contributes nothing. -/
theorem recommendation_item_iff :
    (∀ (b : List Char) (r : Recommendation), r ∈ processRecs b →
        r.element ≠ [] ∧ (r.suggestion ≠ [] ∨ r.reasoning ≠ [])) ∧
    (∀ lbl chunk : List Char,
        (∃ r, mkRec lbl chunk = some r) ↔
          trim lbl ≠ [] ∧
            ((findSugg chunk).getD [] ≠ [] ∨ (findReas chunk).getD [] ≠ [])) ∧
    processRecs ("### Element:\n#### Suggestion:\nGreat stuff".toList) = [] := by
  refine ⟨?_, ?_, by decide⟩
  · intro b r hr
    unfold processRecs at hr
    rw [List.mem_filterMap] at hr
    obtain ⟨p, _, hp⟩ := hr
    unfold mkRec at hp
    by_cases hc : trim p.1 ≠ [] ∧
        ((findSugg p.2).getD [] ≠ [] ∨ (findReas p.2).getD [] ≠ [])
    · rw [if_pos hc] at hp
      cases hp
      exact hc
    · rw [if_neg hc] at hp
      cases hp
  · intro lbl chunk
    unfold mkRec
    by_cases hc : trim lbl ≠ [] ∧
        ((findSugg chunk).getD [] ≠ [] ∨ (findReas chunk).getD [] ≠ [])
    · rw [if_pos hc]
      exact ⟨fun _ => hc, fun _ => ⟨_, rfl⟩⟩
    · rw [if_neg hc]
      refine ⟨fun hx => absurd ?_ hc, fun hx => absurd hx hc⟩
      obtain ⟨r, hr⟩ := hx
      cases hr

/-- Witness for C6: the membership implication at a concrete parsed block. -/
theorem recommendation_item_iff_witness :
    (⟨"Title".toList, "S".toList, []⟩ : Recommendation).element ≠ [] ∧
      ((⟨"Title".toList, "S".toList, []⟩ : Recommendation).suggestion ≠ [] ∨
        (⟨"Title".toList, "S".toList, []⟩ : Recommendation).reasoning ≠ []) :=
  recommendation_item_iff.1 ("### Element: Title\n#### Suggestion:\nS".toList) _ (by decide)

theorem findSec_isSome_append (f : List Char → Bool) (h : List Char) (s : List Char)
    (hs : head2At h s = true) : ∀ u, (findSec f h (u ++ s)).isSome = true := by
  intro u
  induction u with
  | nil =>
    cases s with
    | nil =>
      have h0 : strStarts ([] : List Char) hh2 = false := by decide
      rw [show head2At h [] = false by simp [head2At, h0]] at hs
      cases hs
    | cons c cs =>
      rw [List.nil_append]
      simp [findSec, hs]
  | cons c u ih =>
    by_cases hc : head2At h (c :: (u ++ s)) = true
    · simp [findSec, hc]
    · simp [findSec, hc, ih]

theorem head2At_ov_append (r : List Char) :
    head2At hOverall ("## Overall Assessment".toList ++ r) = true := by
  have e1 : "## Overall Assessment".toList ++ r = hh2 ++ ((' ' :: hOverall) ++ r) := by
    rw [show "## Overall Assessment".toList = hh2 ++ (' ' :: hOverall) by decide,
      List.append_assoc]
  rw [e1]
  unfold head2At
  rw [Bool.and_eq_true]
  constructor
  · exact strStarts_append_self hh2 _
  · have e2 : (hh2 ++ ((' ' :: hOverall) ++ r)).drop 2 = (' ' :: hOverall) ++ r := by
      rw [show (2 : Nat) = hh2.length by decide, List.drop_left]
    rw [e2, List.cons_append, trimLeft_cons_of_ws (by decide)]
    have e4 : trimLeft (hOverall ++ r) = hOverall ++ r := by
      rw [show hOverall = 'O' :: "verall Assessment".toList by decide, List.cons_append,
        trimLeft_cons_of_not (by decide)]
    rw [e4]
    exact strStarts_append_self hOverall r

/-- C10: the `##` section headings are recognized at any position — for
every prefix `p` and tail `r` the extractor finds an Overall Assessment
section in `p ++ "## Overall Assessment" ++ r`, including mid-line as the
second conjunct shows concretely; the first occurrence wins when the heading
is duplicated; and the `### Element:` block marker is recognized at a line
start but not in the middle of a line. -/
theorem heading_position_sensitivity :
    (∀ p r : List Char,
        (findSec term2At hOverall (p ++ ("## Overall Assessment".toList ++ r))).isSome
          = true) ∧
    (parseAnalysisFromText ("intro text## Overall Assessment\nGood".toList)).overall_assessment
        = "Good".toList ∧
    (parseAnalysisFromText
        ("## Overall Assessment\nA\n## Overall Assessment\nB".toList)).overall_assessment
        = "A".toList ∧
    (parseAnalysisFromText
        ("## Actionable Recommendations\n### Element: Title\n#### Suggestion:\nS".toList)).recommendations
        = [⟨"Title".toList, "S".toList, []⟩] ∧
    (parseAnalysisFromText
        ("## Actionable Recommendations\nx### Element: Title\n#### Suggestion:\nS".toList)).recommendations
        = [] := by
  refine ⟨?_, by decide, by decide, by decide, by decide⟩
  intro p r
  exact findSec_isSome_append term2At hOverall _ (head2At_ov_append r) p

/-- C7 counterexample: the spec example input has two split points (one
before each bulleted line), so the formatter's split produces three
paragraph chunks, not two. -/
theorem bullet_split_not_two_paragraphs :
    (splitBullets (replaceBold ("Intro line\n* First bullet\n* Second bullet".toList))).length
        = 3 ∧
    ¬ (splitBullets (replaceBold ("Intro line\n* First bullet\n* Second bullet".toList))).length
        = 2 := by decide

/-- C7 (amended): formatting the spec example yields exactly three paragraph
chunks — a split point before each newline that is followed, after optional
whitespace, by a bullet marker — with the bullets stripped. -/
theorem bullet_split_three_paragraphs :
    formatAIResponseWithAsterisks ("Intro line\n* First bullet\n* Second bullet".toList)
      = "<p>Intro line</p><p>First bullet</p><p>Second bullet</p>".toList := by decide

/-- C9 counterexample: a malformed double-asterisk marker at the start of a
paragraph chunk is not left fully literal: the bullet-stripping step removes
the chunk-leading asterisk, so one of the two stars disappears. -/
theorem formatter_malformed_marker_stripped :
    formatAIResponseWithAsterisks ("**Bold* and plain".toList)
        = "<p>*Bold* and plain</p>".toList ∧
    formatAIResponseWithAsterisks ("**Bold* and plain".toList)
        ≠ "<p>**Bold* and plain</p>".toList := by decide

/-- C9 (amended): the formatter maps the empty string to the empty string
(no empty wrapper) and wraps a bold span in a strong-emphasis element inside
a single paragraph; malformed double-asterisk markers are left as literal
characters by the bold-replacement pass and survive in the output whenever
they are not at the start of a paragraph chunk (a chunk-leading asterisk is
consumed by the bullet-stripping step). -/
theorem formatter_empty_bold_malformed :
    formatAIResponseWithAsterisks [] = [] ∧
    formatAIResponseWithAsterisks ("**Bold** and plain".toList)
      = "<p><strong>Bold</strong> and plain</p>".toList ∧
    replaceBold ("**Bold* and plain".toList) = "**Bold* and plain".toList ∧
    formatAIResponseWithAsterisks ("see **Bold* and plain".toList)
      = "<p>see **Bold* and plain</p>".toList := by
  exact ⟨rfl, by decide, by decide, by decide⟩

/-- C8 counterexample: the formatter is not idempotent on already-formatted
asterisk-free text: re-formatting wraps the output in another paragraph. -/
theorem formatter_not_idempotent :
    formatAIResponseWithAsterisks (formatAIResponseWithAsterisks ['a'])
        ≠ formatAIResponseWithAsterisks ['a'] ∧
    formatAIResponseWithAsterisks ['a'] = "<p>a</p>".toList ∧
    formatAIResponseWithAsterisks ("<p>a</p>".toList) = "<p><p>a</p></p>".toList := by
  decide

/-- C2 counterexample: the suggestion body is not cut at "the next `####`
heading" — only the specific `\n####\s*Reasoning:` lookahead ends it, so a
stray `#### Extra:` heading stays inside the extracted suggestion. -/
theorem recommendations_suggestion_not_cut_by_other_h4 :
    (parseAnalysisFromText
      ("## Actionable Recommendations\n### Element: Title\n#### Suggestion:\nS\n#### Extra:\nX\n#### Reasoning:\nR".toList)).recommendations
      = [⟨"Title".toList, "S\n#### Extra:\nX".toList, "R".toList⟩] ∧
    "S\n#### Extra:\nX".toList ≠ "S".toList := by decide

theorem mem_trimLeft {a : Char} : ∀ {l : List Char}, a ∈ trimLeft l → a ∈ l := by
  intro l
  induction l with
  | nil => simp [trimLeft]
  | cons c cs ih =>
    by_cases h : isWs c = true
    · rw [trimLeft_cons_of_ws h]
      intro hm
      exact List.mem_cons_of_mem c (ih hm)
    · rw [trimLeft_cons_of_not (by simpa using h)]
      exact id

theorem mem_trim {a : Char} {l : List Char} (h : a ∈ trim l) : a ∈ l := by
  unfold trim trimRight at h
  rw [List.mem_reverse] at h
  have h2 := mem_trimLeft h
  rw [List.mem_reverse] at h2
  exact mem_trimLeft h2

theorem strStarts_star_false {l : List Char} (h : '*' ∉ l) : strStarts l ['*'] = false := by
  cases hs : strStarts l ['*'] with
  | false => rfl
  | true =>
    obtain ⟨r, hr⟩ := (strStarts_iff ['*'] l).mp hs
    have : '*' ∈ l := by rw [hr]; simp
    exact absurd this h

theorem boldGo_no_star : ∀ {l : List Char}, '*' ∉ l → boldGo false l = l := by
  intro l
  induction l with
  | nil => intro _; rfl
  | cons c cs ih =>
    intro h
    have hc : c ≠ '*' := fun hx => h (by rw [hx]; exact List.mem_cons_self _ _)
    have hss : strStarts (c :: cs) ['*', '*'] = false := by
      cases hs : strStarts (c :: cs) ['*', '*'] with
      | false => rfl
      | true =>
        obtain ⟨r, hr⟩ := (strStarts_iff _ _).mp hs
        injection hr with h1 _
        exact absurd h1 hc
    have hb : boldAt (c :: cs) = false := by
      unfold boldAt
      rw [hss, Bool.false_and]
    have step : boldGo false (c :: cs) = c :: boldGo false cs := by
      rw [boldGo.eq_def]
      simp [hb]
    rw [step, ih fun hm => h (List.mem_cons_of_mem c hm)]

theorem splitGo_no_star : ∀ {l : List Char}, '*' ∉ l → splitGo false l = [l] := by
  intro l
  induction l with
  | nil => intro _; rfl
  | cons c cs ih =>
    intro h
    have h1 : strStarts (trimLeft cs) ['*'] = false :=
      strStarts_star_false fun hm => h (List.mem_cons_of_mem c (mem_trimLeft hm))
    have e : splitGo false cs = [cs] := ih fun hm => h (List.mem_cons_of_mem c hm)
    simp [splitGo, h1, e]

theorem replaceNl_no_nl : ∀ {l : List Char}, '\n' ∉ l → replaceNl l = l := by
  intro l
  induction l with
  | nil => intro _; rfl
  | cons c cs ih =>
    intro h
    have hc : ¬ c = '\n' := fun hx => h (by rw [hx]; exact List.mem_cons_self _ _)
    simp only [replaceNl, hc, if_false]
    rw [ih fun hm => h (List.mem_cons_of_mem c hm)]

theorem not_nl_mem_replaceNl : ∀ {l : List Char}, '\n' ∉ replaceNl l := by
  intro l
  induction l with
  | nil => decide
  | cons c cs ih =>
    by_cases hc : c = '\n'
    · simp only [replaceNl, hc, if_true]
      intro hm
      rcases List.mem_append.mp hm with hm | hm
      · revert hm; decide
      · exact ih hm
    · simp only [replaceNl, hc, if_false]
      intro hm
      rcases List.mem_cons.mp hm with hm | hm
      · exact hc hm.symm
      · exact ih hm

theorem mem_replaceNl {a : Char} :
    ∀ {l : List Char}, a ∈ replaceNl l → a ∈ l ∨ a ∈ "<br>".toList := by
  intro l
  induction l with
  | nil => simp [replaceNl]
  | cons c cs ih =>
    by_cases hc : c = '\n'
    · simp only [replaceNl, hc, if_true]
      intro hm
      rcases List.mem_append.mp hm with hm | hm
      · exact Or.inr hm
      · rcases ih hm with hm | hm
        · exact Or.inl (List.mem_cons_of_mem _ hm)
        · exact Or.inr hm
    · simp only [replaceNl, hc, if_false]
      intro hm
      rcases List.mem_cons.mp hm with hm | hm
      · exact Or.inl (by rw [hm]; exact List.mem_cons_self _ _)
      · rcases ih hm with hm | hm
        · exact Or.inl (List.mem_cons_of_mem c hm)
        · exact Or.inr hm

theorem trimRight_append_single {c : Char} (hc : isWs c = false) (l : List Char) :
    trimRight (l ++ [c]) = l ++ [c] := by
  unfold trimRight
  rw [List.reverse_append, List.reverse_singleton, List.singleton_append,
    trimLeft_cons_of_not hc, List.reverse_cons, List.reverse_reverse]

theorem formatAI_no_star {x : List Char} (hx : x ≠ []) (hs : '*' ∉ x) :
    formatAIResponseWithAsterisks x
      = "<p>".toList ++ replaceNl (trim x) ++ "</p>".toList := by
  unfold formatAIResponseWithAsterisks replaceBold splitBullets
  rw [if_neg hx, boldGo_no_star hs, splitGo_no_star hs]
  have h0 : strStarts (trim x) ['*'] = false :=
    strStarts_star_false fun hm => hs (mem_trim hm)
  simp [renderPara, h0]

/-- C8 (amended): the formatter is not idempotent on nonempty
already-formatted asterisk-free plain text; instead, re-formatting wraps the
previous output in exactly one more paragraph container.  (On the empty
string both sides are the empty string, so idempotence holds only there.) -/
theorem formatter_reformat_wraps (x : List Char) (hx : x ≠ []) (hs : '*' ∉ x) :
    formatAIResponseWithAsterisks (formatAIResponseWithAsterisks x)
        = "<p>".toList ++ formatAIResponseWithAsterisks x ++ "</p>".toList ∧
    formatAIResponseWithAsterisks (formatAIResponseWithAsterisks x)
        ≠ formatAIResponseWithAsterisks x := by
  have hyx : formatAIResponseWithAsterisks x
      = "<p>".toList ++ replaceNl (trim x) ++ "</p>".toList := formatAI_no_star hx hs
  set y := formatAIResponseWithAsterisks x with hy
  have ecs : y = '<' :: 'p' :: '>' :: (replaceNl (trim x) ++ "</p>".toList) := by
    rw [hyx]; rfl
  have hyne : y ≠ [] := by rw [ecs]; exact List.cons_ne_nil _ _
  have hstar : '*' ∉ y := by
    rw [hyx]
    intro hm
    rcases List.mem_append.mp hm with hm | hm
    · rcases List.mem_append.mp hm with hm | hm
      · revert hm; decide
      · rcases mem_replaceNl hm with hm | hm
        · exact hs (mem_trim hm)
        · revert hm; decide
    · revert hm; decide
  have hnl : '\n' ∉ y := by
    rw [hyx]
    intro hm
    rcases List.mem_append.mp hm with hm | hm
    · rcases List.mem_append.mp hm with hm | hm
      · revert hm; decide
      · exact not_nl_mem_replaceNl hm
    · revert hm; decide
  have htl : trimLeft y = y := by
    rw [ecs]; exact trimLeft_cons_of_not (by decide) _
  have htr : trimRight y = y := by
    have e2 : y = ("<p>".toList ++ replaceNl (trim x) ++ ['<', '/', 'p']) ++ ['>'] := by
      rw [hyx, show "</p>".toList = ['<', '/', 'p'] ++ ['>'] from rfl]
      simp [List.append_assoc]
    rw [e2]
    exact trimRight_append_single (by decide) _
  have htrim : trim y = y := by
    unfold trim
    rw [htl, htr]
  have hmain : formatAIResponseWithAsterisks y
      = "<p>".toList ++ y ++ "</p>".toList := by
    rw [formatAI_no_star hyne hstar, htrim, replaceNl_no_nl hnl]
  refine ⟨hmain, ?_⟩
  rw [hmain]
  intro hcon
  have hlen := congrArg List.length hcon
  simp only [List.length_append, show "<p>".toList.length = 3 from rfl,
    show "</p>".toList.length = 4 from rfl] at hlen
  omega

/-- Witness for C8 at the one-character input. -/
theorem formatter_reformat_wraps_witness :
    formatAIResponseWithAsterisks (formatAIResponseWithAsterisks ("a".toList))
        = "<p>".toList ++ formatAIResponseWithAsterisks ("a".toList) ++ "</p>".toList ∧
    formatAIResponseWithAsterisks (formatAIResponseWithAsterisks ("a".toList))
        ≠ formatAIResponseWithAsterisks ("a".toList) :=
  formatter_reformat_wraps _ (by decide) (by decide)

/-! ### Round-trip through the recommendations-block grammar (for C2)

A recommendation block is rendered exactly as the prompt requests it from
the model: a `### Element: <label>` line, then an optional
`#### Suggestion:` line with a body line, then an optional
`#### Reasoning:` line with a body line. -/

def litElemLine : List Char := "### Element: ".toList
def litSug16 : List Char := "#### Suggestion:".toList
def litRsn15 : List Char := "#### Reasoning:".toList

/-- One rendered block of the Actionable Recommendations section. -/
structure RecBlock where
  el : List Char
  sug : Option (List Char)
  rsn : Option (List Char)

/-- Heading line plus a one-line body plus the final newline (or nothing). -/
def renderPart (h : List Char) : Option (List Char) → List Char
  | none => []
  | some b => h ++ ('\n' :: (b ++ ['\n']))

def innerOf (b : RecBlock) : List Char :=
  renderPart litSug16 b.sug ++ renderPart litRsn15 b.rsn

def renderBlock (b : RecBlock) : List Char :=
  litElemLine ++ b.el ++ ['\n'] ++ innerOf b

def renderBlocks (bs : List RecBlock) : List Char := (bs.map renderBlock).flatten

/-- A usable element label: non-blank, pre-trimmed, single-line. -/
def GoodLabel (e : List Char) : Prop :=
  e ≠ [] ∧ trimLeft e = e ∧ trimRight e = e ∧ ∀ c ∈ e, isTerm c = false

/-- A plain one-line body: non-blank, pre-trimmed, no line break, no `#`. -/
def GoodBody (b : List Char) : Prop :=
  b ≠ [] ∧ trimLeft b = b ∧ trimRight b = b ∧ (∀ c ∈ b, isTerm c = false) ∧ '#' ∉ b

def GoodOpt : Option (List Char) → Prop
  | none => True
  | some b => GoodBody b

def GoodBlock (b : RecBlock) : Prop :=
  GoodLabel b.el ∧ GoodOpt b.sug ∧ GoodOpt b.rsn

instance GoodLabel.dec (e : List Char) : Decidable (GoodLabel e) := by
  unfold GoodLabel; infer_instance

instance GoodBody.dec (b : List Char) : Decidable (GoodBody b) := by
  unfold GoodBody; infer_instance

instance GoodOpt.dec : ∀ o, Decidable (GoodOpt o)
  | none => .isTrue trivial
  | some b => inferInstanceAs (Decidable (GoodBody b))

instance GoodBlock.dec (b : RecBlock) : Decidable (GoodBlock b) := by
  unfold GoodBlock; infer_instance

/-- The item the extractor is expected to produce from one block. -/
def expectedRec (b : RecBlock) : Option Recommendation :=
  if b.sug = none ∧ b.rsn = none then none
  else some ⟨b.el, b.sug.getD [], b.rsn.getD []⟩

theorem renderBlocks_nil : renderBlocks [] = [] := rfl

theorem renderBlocks_cons (b : RecBlock) (bs : List RecBlock) :
    renderBlocks (b :: bs)
      = litElemLine ++ (b.el ++ ('\n' :: (innerOf b ++ renderBlocks bs))) := by
  simp [renderBlocks, renderBlock, List.append_assoc]

theorem strStarts_cons_false {c d : Char} (h : c ≠ d) (l p : List Char) :
    strStarts (c :: l) (d :: p) = false := by
  simp [strStarts, h]

theorem trimLeft_length_le : ∀ l : List Char, (trimLeft l).length ≤ l.length := by
  intro l
  induction l with
  | nil => simp [trimLeft]
  | cons c cs ih =>
    by_cases h : isWs c = true
    · rw [trimLeft_cons_of_ws h]
      exact Nat.le_trans ih (Nat.le_succ _)
    · rw [trimLeft_cons_of_not (by simpa using h)]

theorem head_not_ws {c : Char} {e : List Char} (h : trimLeft (c :: e) = c :: e) :
    isWs c = false := by
  by_cases hc : isWs c = true
  · rw [trimLeft_cons_of_ws hc] at h
    have := trimLeft_length_le e
    rw [h] at this
    simp at this
  · simpa using hc

theorem trimLeft_good_append {e : List Char} (he : e ≠ []) (ht : trimLeft e = e)
    (t : List Char) : trimLeft (e ++ t) = e ++ t := by
  cases e with
  | nil => exact absurd rfl he
  | cons c cs =>
    rw [List.cons_append]
    exact trimLeft_cons_of_not (head_not_ws ht) _

theorem lineOf_append_nl {e : List Char} (he : ∀ c ∈ e, isTerm c = false)
    (t : List Char) : lineOf (e ++ ('\n' :: t)) = e := by
  induction e with
  | nil => simp [lineOf, isTerm]
  | cons c cs ih =>
    rw [List.cons_append]
    rw [show lineOf (c :: (cs ++ ('\n' :: t)))
        = c :: lineOf (cs ++ ('\n' :: t)) by
      simp [lineOf, he c (List.mem_cons_self _ _)]]
    rw [ih fun d hd => he d (List.mem_cons_of_mem c hd)]

theorem elemGo_skip_step (c : Char) (cs : List Char) (n : Nat) (ls : Bool) :
    elemGo (c :: cs) (n + 1) ls = elemGo cs n (isTerm c) := rfl

theorem elemGo_nil (n : Nat) (ls : Bool) : elemGo [] n ls = ([], []) := rfl

theorem elemGo_nomatch {c : Char} {cs : List Char} {ls : Bool}
    (h : (ls && elemHeadAt (c :: cs)) = false) :
    elemGo (c :: cs) 0 ls
      = (c :: (elemGo cs 0 (isTerm c)).1, (elemGo cs 0 (isTerm c)).2) := by
  rw [elemGo.eq_def]
  simp [h]

theorem elemGo_match {c : Char} {cs : List Char}
    (h : elemHeadAt (c :: cs) = true) :
    elemGo (c :: cs) 0 true
      = ([], (elemLabel (c :: cs),
          (elemGo cs ((c :: cs).length - (elemAfterLabel (c :: cs)).length - 1) false).1) ::
          (elemGo cs ((c :: cs).length - (elemAfterLabel (c :: cs)).length - 1) false).2) := by
  rw [elemGo.eq_def]
  simp [h]

theorem elemHeadAt_cons_ne {c : Char} (hc : c ≠ '#') (t : List Char) :
    elemHeadAt (c :: t) = false := by
  unfold elemHeadAt
  rw [show hh3 = '#' :: "##".toList from rfl, strStarts_cons_false hc, Bool.false_and]

theorem elemHeadAt_nl (t : List Char) : elemHeadAt ('\n' :: t) = false :=
  elemHeadAt_cons_ne (by decide) t

theorem elemHeadAt_sugline (t : List Char) : elemHeadAt (litSug16 ++ t) = false := by
  unfold elemHeadAt
  have e1 : (litSug16 ++ t).drop 3 = '#' :: (" Suggestion:".toList ++ t) := by
    rw [show litSug16 ++ t = hh3 ++ ('#' :: (" Suggestion:".toList ++ t)) from rfl,
      show (3 : Nat) = hh3.length from rfl, List.drop_left]
  rw [e1, trimLeft_cons_of_not (by decide),
    show litElement = 'E' :: "lement:".toList from rfl, strStarts_cons_false (by decide),
    Bool.and_false]

theorem elemHeadAt_rsnline (t : List Char) : elemHeadAt (litRsn15 ++ t) = false := by
  unfold elemHeadAt
  have e1 : (litRsn15 ++ t).drop 3 = '#' :: (" Reasoning:".toList ++ t) := by
    rw [show litRsn15 ++ t = hh3 ++ ('#' :: (" Reasoning:".toList ++ t)) from rfl,
      show (3 : Nat) = hh3.length from rfl, List.drop_left]
  rw [e1, trimLeft_cons_of_not (by decide),
    show litElement = 'E' :: "lement:".toList from rfl, strStarts_cons_false (by decide),
    Bool.and_false]

theorem elemGo_skip_all : ∀ (u : List Char), u ≠ [] → (∀ c ∈ u, isTerm c = false) →
    ∀ (t : List Char) (ls : Bool), elemGo (u ++ t) u.length ls = elemGo t 0 false := by
  intro u
  induction u with
  | nil => intro h; exact absurd rfl h
  | cons c u' ih =>
    intro _ hterm t ls
    rw [List.cons_append, show (c :: u').length = u'.length + 1 from rfl,
      elemGo_skip_step, hterm c (List.mem_cons_self _ _)]
    cases u' with
    | nil => rw [List.nil_append]; rfl
    | cons d u'' =>
      exact ih (List.cons_ne_nil _ _) (fun x hx => hterm x (List.mem_cons_of_mem c hx)) t false

theorem elemGo_accum : ∀ (w : List Char), w ≠ [] → (∀ c ∈ w, isTerm c = false) →
    ∀ (t : List Char) (ls : Bool), (ls = false ∨ elemHeadAt (w ++ t) = false) →
    elemGo (w ++ t) 0 ls = (w ++ (elemGo t 0 false).1, (elemGo t 0 false).2) := by
  intro w
  induction w with
  | nil => intro h; exact absurd rfl h
  | cons c w' ih =>
    intro _ hterm t ls hok
    have hcond : (ls && elemHeadAt (c :: (w' ++ t))) = false := by
      rcases hok with hok | hok
      · rw [hok, Bool.false_and]
      · rw [List.cons_append] at hok
        rw [hok, Bool.and_false]
    rw [List.cons_append, elemGo_nomatch hcond, hterm c (List.mem_cons_self _ _)]
    cases w' with
    | nil => simp
    | cons d w'' =>
      rw [ih (List.cons_ne_nil _ _) (fun x hx => hterm x (List.mem_cons_of_mem c hx)) t
        false (Or.inl rfl)]
      rfl

theorem elemGo_nl (t : List Char) (ls : Bool) :
    elemGo ('\n' :: t) 0 ls = ('\n' :: (elemGo t 0 true).1, (elemGo t 0 true).2) := by
  have hcond : (ls && elemHeadAt ('\n' :: t)) = false := by
    rw [elemHeadAt_nl, Bool.and_false]
  rw [elemGo_nomatch hcond]
  rfl

theorem elemGo_part (lit : List Char) (hne : lit ≠ []) (hterm : ∀ c ∈ lit, isTerm c = false)
    (hhead : ∀ z, elemHeadAt (lit ++ z) = false)
    (body : List Char) (hb : GoodBody body) (t : List Char) :
    elemGo (renderPart lit (some body) ++ t) 0 true
      = (renderPart lit (some body) ++ (elemGo t 0 true).1, (elemGo t 0 true).2) := by
  have e : renderPart lit (some body) ++ t = lit ++ ('\n' :: (body ++ ('\n' :: t))) := by
    simp [renderPart, List.append_assoc]
  rw [e]
  rw [elemGo_accum lit hne hterm _ true (Or.inr (hhead _))]
  rw [elemGo_nl]
  obtain ⟨hbne, hbtl, -, hbterm, hbhash⟩ := hb
  have hbhead : elemHeadAt (body ++ ('\n' :: t)) = false := by
    cases body with
    | nil => exact absurd rfl hbne
    | cons c cs =>
      rw [List.cons_append]
      exact elemHeadAt_cons_ne
        (fun hx => hbhash (by rw [hx]; exact List.mem_cons_self _ _)) _
  rw [elemGo_accum body hbne hbterm _ true (Or.inr hbhead)]
  rw [elemGo_nl]
  simp [renderPart, List.append_assoc]

theorem elemGo_inner (b : RecBlock) (hb : GoodBlock b) (t : List Char) :
    elemGo (innerOf b ++ t) 0 true
      = (innerOf b ++ (elemGo t 0 true).1, (elemGo t 0 true).2) := by
  obtain ⟨-, hsug, hrsn⟩ := hb
  unfold innerOf
  cases hs : b.sug with
  | none =>
    cases hr : b.rsn with
    | none => simp [renderPart]
    | some r =>
      rw [hr] at hrsn
      have hrb : GoodBody r := hrsn
      simp only [renderPart, List.nil_append]
      exact elemGo_part litRsn15 (by decide) (by decide) elemHeadAt_rsnline r hrb t
  | some s =>
    rw [hs] at hsug
    have hsb : GoodBody s := hsug
    cases hr : b.rsn with
    | none =>
      simp only [renderPart, List.append_nil]
      exact elemGo_part litSug16 (by decide) (by decide) elemHeadAt_sugline s hsb t
    | some r =>
      rw [hr] at hrsn
      have hrb : GoodBody r := hrsn
      rw [List.append_assoc]
      rw [elemGo_part litSug16 (by decide) (by decide) elemHeadAt_sugline s hsb _]
      rw [elemGo_part litRsn15 (by decide) (by decide) elemHeadAt_rsnline r hrb t]
      simp [List.append_assoc]

theorem elemHead_at_block (e rest : List Char) (he : GoodLabel e) :
    elemHeadAt (litElemLine ++ (e ++ ('\n' :: rest))) = true ∧
    elemLabel (litElemLine ++ (e ++ ('\n' :: rest))) = e ∧
    elemAfterLabel (litElemLine ++ (e ++ ('\n' :: rest))) = '\n' :: rest := by
  obtain ⟨hene, hetl, -, heterm⟩ := he
  have e0 : litElemLine ++ (e ++ ('\n' :: rest))
      = hh3 ++ (' ' :: ("Element: ".toList ++ (e ++ ('\n' :: rest)))) := by
    rw [show litElemLine = hh3 ++ (' ' :: "Element: ".toList) from rfl]
    simp
  have e3 : (litElemLine ++ (e ++ ('\n' :: rest))).drop 3
      = ' ' :: ("Element: ".toList ++ (e ++ ('\n' :: rest))) := by
    rw [e0, show (3 : Nat) = hh3.length from rfl, List.drop_left]
  have e4 : trimLeft ((litElemLine ++ (e ++ ('\n' :: rest))).drop 3)
      = "Element: ".toList ++ (e ++ ('\n' :: rest)) := by
    rw [e3, trimLeft_cons_of_ws (by decide)]
    exact trimLeft_good_append (by decide) (by decide) _
  have e5 : "Element: ".toList ++ (e ++ ('\n' :: rest))
      = litElement ++ (' ' :: (e ++ ('\n' :: rest))) := by
    rw [show "Element: ".toList = litElement ++ [' '] from rfl]
    simp
  have e6 : elemLabelArea (litElemLine ++ (e ++ ('\n' :: rest))) = e ++ ('\n' :: rest) := by
    unfold elemLabelArea
    rw [e4, e5, show (8 : Nat) = litElement.length from rfl, List.drop_left,
      trimLeft_cons_of_ws (by decide)]
    exact trimLeft_good_append hene hetl _
  have e7 : elemLabel (litElemLine ++ (e ++ ('\n' :: rest))) = e := by
    unfold elemLabel
    rw [e6, lineOf_append_nl heterm]
  refine ⟨?_, e7, ?_⟩
  · unfold elemHeadAt
    rw [Bool.and_eq_true]
    constructor
    · rw [e0]
      exact strStarts_append_self hh3 _
    · rw [e4, e5]
      exact strStarts_append_self litElement _
  · unfold elemAfterLabel
    rw [e6, e7, List.drop_left]

theorem elemGo_renderBlocks : ∀ (bs : List RecBlock), (∀ b ∈ bs, GoodBlock b) →
    elemGo (renderBlocks bs) 0 true
      = ([], bs.map fun b => (b.el, '\n' :: innerOf b)) := by
  intro bs
  induction bs with
  | nil => intro _; rfl
  | cons b bs' ih =>
    intro hgood
    have hb := hgood b (List.mem_cons_self _ _)
    have hbs' := fun x hx => hgood x (List.mem_cons_of_mem b hx)
    rw [renderBlocks_cons]
    obtain ⟨hhead, hlabel, hafter⟩ :=
      elemHead_at_block b.el (innerOf b ++ renderBlocks bs') hb.1
    have es : litElemLine ++ (b.el ++ ('\n' :: (innerOf b ++ renderBlocks bs')))
        = '#' :: ("## Element: ".toList ++ (b.el ++ ('\n' :: (innerOf b ++ renderBlocks bs')))) := by
      rw [show litElemLine = '#' :: "## Element: ".toList from rfl]
      simp
    rw [es] at hhead hlabel hafter ⊢
    rw [elemGo_match hhead]
    rw [hlabel]
    have hulen : ('#' :: ("## Element: ".toList ++ (b.el ++ ('\n' :: (innerOf b ++ renderBlocks bs'))))).length
          - (elemAfterLabel ('#' :: ("## Element: ".toList ++ (b.el ++ ('\n' :: (innerOf b ++ renderBlocks bs')))))).length - 1
        = ("## Element: ".toList ++ b.el).length := by
      rw [hafter]
      simp [List.length_append, List.length_cons]
      omega
    rw [hulen]
    have hu : "## Element: ".toList ++ (b.el ++ ('\n' :: (innerOf b ++ renderBlocks bs')))
        = ("## Element: ".toList ++ b.el) ++ ('\n' :: (innerOf b ++ renderBlocks bs')) := by
      simp [List.append_assoc]
    rw [hu]
    have hune : ("## Element: ".toList ++ b.el) ≠ [] := by
      intro hx
      have := congrArg List.length hx
      simp [List.length_append] at this
    have hlit : ∀ c ∈ "## Element: ".toList, isTerm c = false := by decide
    have huterm : ∀ c ∈ ("## Element: ".toList ++ b.el), isTerm c = false := by
      intro c hc
      rcases List.mem_append.mp hc with hc | hc
      · exact hlit c hc
      · exact hb.1.2.2.2 c hc
    rw [elemGo_skip_all _ hune huterm _ false]
    rw [elemGo_nl]
    rw [elemGo_inner b hb (renderBlocks bs')]
    rw [ih hbs']
    simp

theorem findSugg_cons_of_true {c : Char} {cs : List Char} (h : suggHeadAt (c :: cs) = true) :
    findSugg (c :: cs)
      = some (trim (bodyUntil reasonTermAt
          (trimLeft ((trimLeft ((c :: cs).drop 4)).drop 11)))) := by
  simp [findSugg, h]

theorem findSugg_cons_of_false {c : Char} {cs : List Char} (h : suggHeadAt (c :: cs) = false) :
    findSugg (c :: cs) = findSugg cs := by
  simp [findSugg, h]

theorem findReas_cons_of_true {c : Char} {cs : List Char} (h : reasonHeadAt (c :: cs) = true) :
    findReas (c :: cs) = some (trim ((trimLeft ((c :: cs).drop 4)).drop 10)) := by
  simp [findReas, h]

theorem findReas_cons_of_false {c : Char} {cs : List Char} (h : reasonHeadAt (c :: cs) = false) :
    findReas (c :: cs) = findReas cs := by
  simp [findReas, h]

theorem bodyUntil_cons_of_true {f : List Char → Bool} {c : Char} {cs : List Char}
    (h : f (c :: cs) = true) : bodyUntil f (c :: cs) = [] := by
  simp [bodyUntil, h]

theorem bodyUntil_cons_of_false {f : List Char → Bool} {c : Char} {cs : List Char}
    (h : f (c :: cs) = false) : bodyUntil f (c :: cs) = c :: bodyUntil f cs := by
  simp [bodyUntil, h]

theorem suggHeadAt_of_hh4_false {s : List Char} (h : strStarts s hh4 = false) :
    suggHeadAt s = false := by
  unfold suggHeadAt
  rw [h, Bool.false_and]

theorem reasonHeadAt_of_hh4_false {s : List Char} (h : strStarts s hh4 = false) :
    reasonHeadAt s = false := by
  unfold reasonHeadAt
  rw [h, Bool.false_and]

theorem suggHeadAt_cons_ne {c : Char} (h : c ≠ '#') (z : List Char) :
    suggHeadAt (c :: z) = false :=
  suggHeadAt_of_hh4_false
    (by rw [show hh4 = '#' :: "###".toList from rfl]; exact strStarts_cons_false h _ _)

theorem reasonHeadAt_cons_ne {c : Char} (h : c ≠ '#') (z : List Char) :
    reasonHeadAt (c :: z) = false :=
  reasonHeadAt_of_hh4_false
    (by rw [show hh4 = '#' :: "###".toList from rfl]; exact strStarts_cons_false h _ _)

theorem reasonTermAt_cons_ne {c : Char} (h : c ≠ '\n') (z : List Char) :
    reasonTermAt (c :: z) = false := by
  unfold reasonTermAt
  rw [show nl4H = '\n' :: "####".toList from rfl, strStarts_cons_false h, Bool.false_and]

theorem strStarts_hh4_f3 (z : List Char) :
    strStarts ('#' :: '#' :: '#' :: ' ' :: z) hh4 = false := by
  rw [show hh4 = '#' :: '#' :: '#' :: '#' :: ([] : List Char) from rfl]
  simp [strStarts, show ((' ' == '#') = false) from by decide]

theorem strStarts_hh4_f2 (z : List Char) :
    strStarts ('#' :: '#' :: ' ' :: z) hh4 = false := by
  rw [show hh4 = '#' :: '#' :: '#' :: '#' :: ([] : List Char) from rfl]
  simp [strStarts, show ((' ' == '#') = false) from by decide]

theorem strStarts_hh4_f1 (z : List Char) :
    strStarts ('#' :: ' ' :: z) hh4 = false := by
  rw [show hh4 = '#' :: '#' :: '#' :: '#' :: ([] : List Char) from rfl]
  simp [strStarts, show ((' ' == '#') = false) from by decide]

theorem drop4_sugline (X : List Char) :
    (litSug16 ++ X).drop 4 = ' ' :: (litSuggestion ++ X) := by
  rw [show litSug16 ++ X = hh4 ++ (' ' :: (litSuggestion ++ X)) from by
    rw [show litSug16 = hh4 ++ (' ' :: litSuggestion) from rfl]; simp,
    show (4 : Nat) = hh4.length from rfl, List.drop_left]

theorem drop4_rsnline (X : List Char) :
    (litRsn15 ++ X).drop 4 = ' ' :: (litReasoning ++ X) := by
  rw [show litRsn15 ++ X = hh4 ++ (' ' :: (litReasoning ++ X)) from by
    rw [show litRsn15 = hh4 ++ (' ' :: litReasoning) from rfl]; simp,
    show (4 : Nat) = hh4.length from rfl, List.drop_left]

theorem suggHead_at_sugline (X : List Char) : suggHeadAt (litSug16 ++ X) = true := by
  unfold suggHeadAt
  rw [Bool.and_eq_true]
  constructor
  · rw [show litSug16 ++ X = hh4 ++ (' ' :: (litSuggestion ++ X)) from by
      rw [show litSug16 = hh4 ++ (' ' :: litSuggestion) from rfl]; simp]
    exact strStarts_append_self hh4 _
  · rw [drop4_sugline X, trimLeft_cons_of_ws (by decide),
      trimLeft_good_append (by decide) (by decide)]
    exact strStarts_append_self litSuggestion _

theorem reasonHead_at_rsnline (X : List Char) : reasonHeadAt (litRsn15 ++ X) = true := by
  unfold reasonHeadAt
  rw [Bool.and_eq_true]
  constructor
  · rw [show litRsn15 ++ X = hh4 ++ (' ' :: (litReasoning ++ X)) from by
      rw [show litRsn15 = hh4 ++ (' ' :: litReasoning) from rfl]; simp]
    exact strStarts_append_self hh4 _
  · rw [drop4_rsnline X, trimLeft_cons_of_ws (by decide),
      trimLeft_good_append (by decide) (by decide)]
    exact strStarts_append_self litReasoning _

theorem reasonHeadAt_sugline_false (X : List Char) :
    reasonHeadAt (litSug16 ++ X) = false := by
  unfold reasonHeadAt
  rw [drop4_sugline X, trimLeft_cons_of_ws (by decide),
    trimLeft_good_append (by decide) (by decide),
    show litSuggestion ++ X = 'S' :: ("uggestion:".toList ++ X) from by
      rw [show litSuggestion = 'S' :: "uggestion:".toList from rfl]; simp,
    show litReasoning = 'R' :: "easoning:".toList from rfl,
    strStarts_cons_false (by decide), Bool.and_false]

theorem suggHeadAt_rsnline_false (X : List Char) :
    suggHeadAt (litRsn15 ++ X) = false := by
  unfold suggHeadAt
  rw [drop4_rsnline X, trimLeft_cons_of_ws (by decide),
    trimLeft_good_append (by decide) (by decide),
    show litReasoning ++ X = 'R' :: ("easoning:".toList ++ X) from by
      rw [show litReasoning = 'R' :: "easoning:".toList from rfl]; simp,
    show litSuggestion = 'S' :: "uggestion:".toList from rfl,
    strStarts_cons_false (by decide), Bool.and_false]

theorem findReas_append_no_hash (w : List Char) (t : List Char) (hw : '#' ∉ w) :
    findReas (w ++ t) = findReas t := by
  induction w with
  | nil => rfl
  | cons c w' ih =>
    rw [List.cons_append,
      findReas_cons_of_false (reasonHeadAt_cons_ne
        (fun hx => hw (by rw [hx]; exact List.mem_cons_self _ _)) _)]
    exact ih fun hm => hw (List.mem_cons_of_mem c hm)

theorem findSugg_append_no_hash (w : List Char) (t : List Char) (hw : '#' ∉ w) :
    findSugg (w ++ t) = findSugg t := by
  induction w with
  | nil => rfl
  | cons c w' ih =>
    rw [List.cons_append,
      findSugg_cons_of_false (suggHeadAt_cons_ne
        (fun hx => hw (by rw [hx]; exact List.mem_cons_self _ _)) _)]
    exact ih fun hm => hw (List.mem_cons_of_mem c hm)

theorem findReas_through_sugline (X : List Char) :
    findReas (litSug16 ++ X) = findReas X := by
  have h0 := reasonHeadAt_sugline_false X
  have e : litSug16 ++ X
      = '#' :: ('#' :: ('#' :: ('#' :: (' ' :: ("Suggestion:".toList ++ X))))) := by
    rw [show litSug16 = '#' :: '#' :: '#' :: '#' :: ' ' :: "Suggestion:".toList from rfl]
    simp
  rw [e] at h0 ⊢
  rw [findReas_cons_of_false h0,
    findReas_cons_of_false (reasonHeadAt_of_hh4_false (strStarts_hh4_f3 _)),
    findReas_cons_of_false (reasonHeadAt_of_hh4_false (strStarts_hh4_f2 _)),
    findReas_cons_of_false (reasonHeadAt_of_hh4_false (strStarts_hh4_f1 _)),
    findReas_cons_of_false (reasonHeadAt_cons_ne (by decide) _)]
  exact findReas_append_no_hash ("Suggestion:".toList) X (by decide)

theorem findSugg_through_rsnline (X : List Char) :
    findSugg (litRsn15 ++ X) = findSugg X := by
  have h0 := suggHeadAt_rsnline_false X
  have e : litRsn15 ++ X
      = '#' :: ('#' :: ('#' :: ('#' :: (' ' :: ("Reasoning:".toList ++ X))))) := by
    rw [show litRsn15 = '#' :: '#' :: '#' :: '#' :: ' ' :: "Reasoning:".toList from rfl]
    simp
  rw [e] at h0 ⊢
  rw [findSugg_cons_of_false h0,
    findSugg_cons_of_false (suggHeadAt_of_hh4_false (strStarts_hh4_f3 _)),
    findSugg_cons_of_false (suggHeadAt_of_hh4_false (strStarts_hh4_f2 _)),
    findSugg_cons_of_false (suggHeadAt_of_hh4_false (strStarts_hh4_f1 _)),
    findSugg_cons_of_false (suggHeadAt_cons_ne (by decide) _)]
  exact findSugg_append_no_hash ("Reasoning:".toList) X (by decide)

theorem findSugg_at_sugline (X : List Char) :
    findSugg (litSug16 ++ X) = some (trim (bodyUntil reasonTermAt (trimLeft X))) := by
  have e : litSug16 ++ X = '#' :: ("### Suggestion:".toList ++ X) := by
    rw [show litSug16 = '#' :: "### Suggestion:".toList from rfl]
    simp
  have hhd := suggHead_at_sugline X
  rw [e] at hhd ⊢
  rw [findSugg_cons_of_true hhd]
  have e2 : ('#' :: ("### Suggestion:".toList ++ X)).drop 4 = ' ' :: (litSuggestion ++ X) := by
    rw [← e]
    exact drop4_sugline X
  rw [e2, trimLeft_cons_of_ws (by decide), trimLeft_good_append (by decide) (by decide),
    show (11 : Nat) = litSuggestion.length from rfl, List.drop_left]

theorem findReas_at_rsnline (X : List Char) :
    findReas (litRsn15 ++ X) = some (trim X) := by
  have e : litRsn15 ++ X = '#' :: ("### Reasoning:".toList ++ X) := by
    rw [show litRsn15 = '#' :: "### Reasoning:".toList from rfl]
    simp
  have hhd := reasonHead_at_rsnline X
  rw [e] at hhd ⊢
  rw [findReas_cons_of_true hhd]
  have e2 : ('#' :: ("### Reasoning:".toList ++ X)).drop 4 = ' ' :: (litReasoning ++ X) := by
    rw [← e]
    exact drop4_rsnline X
  rw [e2, trimLeft_cons_of_ws (by decide), trimLeft_good_append (by decide) (by decide),
    show (10 : Nat) = litReasoning.length from rfl, List.drop_left]

theorem reasonTermAt_rsn_boundary (z : List Char) :
    reasonTermAt ('\n' :: (litRsn15 ++ z)) = true := by
  unfold reasonTermAt
  rw [Bool.and_eq_true]
  constructor
  · rw [show '\n' :: (litRsn15 ++ z) = nl4H ++ (" Reasoning:".toList ++ z) from rfl]
    exact strStarts_append_self nl4H _
  · rw [show ('\n' :: (litRsn15 ++ z)).drop 5 = ' ' :: (litReasoning ++ z) from rfl,
      trimLeft_cons_of_ws (by decide), trimLeft_good_append (by decide) (by decide)]
    exact strStarts_append_self litReasoning _

theorem bodyUntil_reason_through (w t : List Char) (hw : ∀ c ∈ w, c ≠ '\n') :
    bodyUntil reasonTermAt (w ++ t) = w ++ bodyUntil reasonTermAt t := by
  induction w with
  | nil => rfl
  | cons c w' ih =>
    rw [List.cons_append,
      bodyUntil_cons_of_false (reasonTermAt_cons_ne (hw c (List.mem_cons_self _ _)) _),
      ih fun x hx => hw x (List.mem_cons_of_mem c hx), List.cons_append]

theorem trimRight_append_nl {r : List Char} (h : trimRight r = r) :
    trimRight (r ++ ['\n']) = r := by
  unfold trimRight at *
  rw [List.reverse_append, show (['\n'] : List Char).reverse = ['\n'] from rfl,
    List.singleton_append, trimLeft_cons_of_ws (by decide)]
  exact h

theorem trim_line {r : List Char} (hne : r ≠ []) (htl : trimLeft r = r)
    (htr : trimRight r = r) : trim (r ++ ['\n']) = r := by
  unfold trim
  rw [trimLeft_good_append hne htl, trimRight_append_nl htr]

theorem trim_nl_line {r : List Char} (hne : r ≠ []) (htl : trimLeft r = r)
    (htr : trimRight r = r) : trim ('\n' :: (r ++ ['\n'])) = r := by
  unfold trim
  rw [trimLeft_cons_of_ws (by decide), trimLeft_good_append hne htl,
    trimRight_append_nl htr]

theorem trim_good {r : List Char} (htl : trimLeft r = r) (htr : trimRight r = r) :
    trim r = r := by
  unfold trim
  rw [htl, htr]

theorem mkRec_block (b : RecBlock) (hb : GoodBlock b) :
    mkRec b.el ('\n' :: innerOf b) = expectedRec b := by
  obtain ⟨⟨hene, hetl, hetr, -⟩, hsug, hrsn⟩ := hb
  have hel : trim b.el = b.el := trim_good hetl hetr
  cases hs : b.sug with
  | some s =>
    rw [hs] at hsug
    obtain ⟨hsne, hstl, hstr, hsterm, hshash⟩ := (hsug : GoodBody s)
    have hsnl : ∀ c ∈ s, c ≠ '\n' := by
      intro c hc hx
      have h := hsterm c hc
      rw [hx] at h
      exact absurd h (by decide)
    cases hr : b.rsn with
    | some r =>
      rw [hr] at hrsn
      obtain ⟨hrne, hrtl, hrtr, hrterm, hrhash⟩ := (hrsn : GoodBody r)
      have einner : innerOf b
          = litSug16 ++ ('\n' :: (s ++ ('\n' :: (litRsn15 ++ ('\n' :: (r ++ ['\n'])))))) := by
        unfold innerOf
        rw [hs, hr]
        simp [renderPart, List.append_assoc]
      have hFS : findSugg ('\n' :: innerOf b) = some s := by
        rw [einner, findSugg_cons_of_false (suggHeadAt_cons_ne (by decide) _),
          findSugg_at_sugline, trimLeft_cons_of_ws (by decide),
          trimLeft_good_append hsne hstl, bodyUntil_reason_through s _ hsnl,
          bodyUntil_cons_of_true (reasonTermAt_rsn_boundary _), List.append_nil,
          trim_good hstl hstr]
      have hFR : findReas ('\n' :: innerOf b) = some r := by
        rw [einner, findReas_cons_of_false (reasonHeadAt_cons_ne (by decide) _),
          findReas_through_sugline,
          findReas_cons_of_false (reasonHeadAt_cons_ne (by decide) _),
          findReas_append_no_hash s _ hshash,
          findReas_cons_of_false (reasonHeadAt_cons_ne (by decide) _),
          findReas_at_rsnline, trim_nl_line hrne hrtl hrtr]
      rw [show expectedRec b = some ⟨b.el, s, r⟩ by simp [expectedRec, hs, hr]]
      simp [mkRec, hFS, hFR, hel, hene, hsne]
    | none =>
      have einner : innerOf b = litSug16 ++ ('\n' :: (s ++ ['\n'])) := by
        unfold innerOf
        rw [hs, hr]
        simp [renderPart]
      have hFS : findSugg ('\n' :: innerOf b) = some s := by
        rw [einner, findSugg_cons_of_false (suggHeadAt_cons_ne (by decide) _),
          findSugg_at_sugline, trimLeft_cons_of_ws (by decide),
          trimLeft_good_append hsne hstl, bodyUntil_reason_through s _ hsnl,
          bodyUntil_cons_of_false (by decide),
          show bodyUntil reasonTermAt [] = [] from rfl, trim_line hsne hstl hstr]
      have hFR : findReas ('\n' :: innerOf b) = none := by
        rw [einner, findReas_cons_of_false (reasonHeadAt_cons_ne (by decide) _),
          findReas_through_sugline,
          findReas_cons_of_false (reasonHeadAt_cons_ne (by decide) _),
          findReas_append_no_hash s _ hshash,
          findReas_cons_of_false (reasonHeadAt_cons_ne (by decide) _)]
        rfl
      rw [show expectedRec b = some ⟨b.el, s, []⟩ by simp [expectedRec, hs, hr]]
      simp [mkRec, hFS, hFR, hel, hene, hsne]
  | none =>
    cases hr : b.rsn with
    | some r =>
      rw [hr] at hrsn
      obtain ⟨hrne, hrtl, hrtr, hrterm, hrhash⟩ := (hrsn : GoodBody r)
      have einner : innerOf b = litRsn15 ++ ('\n' :: (r ++ ['\n'])) := by
        unfold innerOf
        rw [hs, hr]
        simp [renderPart]
      have hFS : findSugg ('\n' :: innerOf b) = none := by
        rw [einner, findSugg_cons_of_false (suggHeadAt_cons_ne (by decide) _),
          findSugg_through_rsnline,
          findSugg_cons_of_false (suggHeadAt_cons_ne (by decide) _),
          findSugg_append_no_hash r _ hrhash,
          findSugg_cons_of_false (suggHeadAt_cons_ne (by decide) _)]
        rfl
      have hFR : findReas ('\n' :: innerOf b) = some r := by
        rw [einner, findReas_cons_of_false (reasonHeadAt_cons_ne (by decide) _),
          findReas_at_rsnline, trim_nl_line hrne hrtl hrtr]
      rw [show expectedRec b = some ⟨b.el, [], r⟩ by simp [expectedRec, hs, hr]]
      simp [mkRec, hFS, hFR, hel, hene, hrne]
    | none =>
      have einner : innerOf b = [] := by
        unfold innerOf
        rw [hs, hr]
        rfl
      have hFS : findSugg ('\n' :: innerOf b) = none := by rw [einner]; decide
      have hFR : findReas ('\n' :: innerOf b) = none := by rw [einner]; decide
      rw [show expectedRec b = none by simp [expectedRec, hs, hr]]
      simp [mkRec, hFS, hFR]

theorem filterMap_congr_mem {α β : Type} (l : List α) {f g : α → Option β}
    (h : ∀ x ∈ l, f x = g x) : l.filterMap f = l.filterMap g := by
  induction l with
  | nil => rfl
  | cons a l' ih =>
    rw [List.filterMap_cons, List.filterMap_cons, h a (List.mem_cons_self _ _),
      ih fun x hx => h x (List.mem_cons_of_mem a hx)]

/-- C2 (amended): over the Actionable Recommendations section produced by
rendering any sequence of blocks (non-blank single-line labels without line
breaks; optional non-blank single-line `#`-free suggestion and reasoning
bodies), the extractor returns exactly one item per block carrying at least
one body, in block order, with each item's suggestion and reasoning drawn
from its own block; a block with only a suggestion or only a reasoning is
captured with the missing field empty.  The suggestion body runs to the next
newline-`####\s*Reasoning:` marker or the end of the block — a different
`####` heading inside the block does not end it. -/
theorem recommendations_blocks_roundtrip (bs : List RecBlock)
    (hbs : ∀ b ∈ bs, GoodBlock b) :
    processRecs (renderBlocks bs) = bs.filterMap expectedRec := by
  unfold processRecs
  rw [elemGo_renderBlocks bs hbs]
  show (bs.map fun b => (b.el, '\n' :: innerOf b)).filterMap (fun p => mkRec p.1 p.2)
      = bs.filterMap expectedRec
  rw [List.filterMap_map]
  exact filterMap_congr_mem bs fun b hb => mkRec_block b (hbs b hb)

/-- Witness for C2 at the spec's own example: a "Title" block with only a
suggestion followed by a "Description" block with only a reasoning. -/
theorem recommendations_blocks_roundtrip_witness :
    processRecs (renderBlocks
        [⟨"Title".toList, some ("Use keywords".toList), none⟩,
         ⟨"Description".toList, none, some ("Adds detail".toList)⟩])
      = [⟨"Title".toList, "Use keywords".toList, []⟩,
         ⟨"Description".toList, [], "Adds detail".toList⟩] := by
  rw [recommendations_blocks_roundtrip _ (by decide)]
  decide
